import Mathlib

/-!
Verification of the ELIFANT-Event event-building pipeline.

This file gives a shallow embedding, in Lean 4, of the core algorithms of the
ELIFANT-Event repository (the DELILA event builder):

* the L2 selection rules (`L2Counter`, `L2Flag`, `L2DataAcceptance` from the
  L2 conditions header) and the per-event loop of `L2EventBuilder::ProcessData`;
* the L1 coincidence grouping of `L1EventBuilder::DataReader`, including the
  threshold filter, the time correction, the sort, the forward and backward
  coincidence walks with trigger-priority suppression, and the
  anti-coincidence tagging;
* the static file distribution of `L1EventBuilder::BuildEvent`;
* the peak-extraction loop of `TimeAlignment::CalculateTimeAlignment`, over a
  small model of ROOT 1-D / 2-D histograms (projection, rebin, maximum bin,
  bin center).

Timestamps are C++ doubles in the source; they are embedded as rationals,
which captures the comparison and subtraction logic exactly on the inputs the
theorems use.  Machine counters (`uint64_t`) are embedded as `Nat`; the only
place where the width of a machine integer matters for the properties below is
the `uint64_t` / `int32_t` comparison in `L2Flag::Check`, which is modelled
with an explicit conversion modulo `2 ^ 64`.

Theorems about the claims of the specification follow the definitions.
-/

unseal Rat.sub Rat.add Rat.mul Rat.inv

namespace Delila

/-! ## Channel settings (`ChSettings.hpp`) -/

/-- One entry of `fChSettingsVec`: the per-channel configuration fields used
by the event builders. -/
structure ChSetting where
  isEventTrigger : Bool := false
  ID : Int := 0
  thresholdADC : Nat := 0
  hasAC : Bool := false
  ACMod : Nat := 0
  ACCh : Nat := 0
  detectorType : String := ""
  tags : List String := []
deriving Repr, DecidableEq, Inhabited

/-- `fChSettingsVec`: settings indexed by module then channel. -/
abbrev Config := List (List ChSetting)

/-- `fChSettingsVec[mod][ch]`.  Out-of-range lookups return the default
channel setting (not an event trigger, no tags). -/
def chAt (cfg : Config) (m c : Nat) : ChSetting :=
  (cfg.getD m []).getD c default

/-- `ChSettings::GetDetectorType`: lower-case the string and match. -/
inductive DetectorType where
  | Unknown
  | AC
  | PMT
  | HPGe
deriving Repr, DecidableEq

/-- `ChSettings::GetDetectorType` from `ChSettings.hpp`. -/
def getDetectorType (s : String) : DetectorType :=
  let t := s.toLower
  if t = "ac" then DetectorType.AC
  else if t = "pmt" then DetectorType.PMT
  else if t = "hpge" then DetectorType.HPGe
  else DetectorType.Unknown

/-! ## L2 conditions (`L2Counter`, `L2Flag`, `L2DataAcceptance`)

These are embedded from the L2 conditions header present in the repository
(the one defining `L2Counter`, `L2Flag` and `L2DataAcceptance`), used by
`L2EventBuilder::ProcessData`. -/

/-- `L2Counter`: a named counter with its condition table
(`fConditionTable[mod][ch]`).  The C++ counter is a `uint64_t`; it is reset
at the start of every event and incremented at most once per hit, so it never
comes near `2 ^ 64` and is embedded as `Nat`. -/
structure L2CounterState where
  name : String
  counter : Nat
  conditionTable : List (List Bool)
deriving Repr, DecidableEq

/-- `L2Counter::Check(mod, ch)`: increment iff `(mod, ch)` is inside the
condition table and the table entry is true.  `List.getD _ _ false` returns
`false` exactly when the C++ bounds checks fail, so one lookup models the
`mod < size && ch < size && table[mod][ch]` chain. -/
def counterCheck (c : L2CounterState) (m ch : Nat) : L2CounterState :=
  if (c.conditionTable.getD m []).getD ch false then
    { c with counter := c.counter + 1 }
  else c

/-- `L2Counter::ResetCounter` followed by `Check` for every hit of the event:
the body of the per-counter loop in `L2EventBuilder::ProcessData`. -/
def evalCounter (c : L2CounterState) (hits : List (Nat × Nat)) : L2CounterState :=
  hits.foldl (fun acc h => counterCheck acc h.1 h.2) { c with counter := 0 }

/-- `L2Flag`: named boolean derived from a counter. -/
structure L2FlagState where
  name : String
  monitorName : String
  condition : String
  value : Int
  flag : Bool
deriving Repr, DecidableEq

/-- The C++ `int32_t` flag constant converted to `uint64_t`, as happens
implicitly in the comparisons of `L2Flag::Check` (usual arithmetic
conversions: the signed operand is converted to the unsigned type). -/
def uint64OfInt32 (v : Int) : Nat :=
  (v % (2 : Int) ^ 64).toNat

/-- The comparison chain of `L2Flag::Check`: `==`, `<`, `>`, `<=`, `>=`,
`!=`, otherwise false.  Both operands are compared as `uint64_t`. -/
def compareCond (cond : String) (counterVal : Nat) (v : Int) : Bool :=
  if cond = "==" then counterVal = uint64OfInt32 v
  else if cond = "<" then counterVal < uint64OfInt32 v
  else if cond = ">" then counterVal > uint64OfInt32 v
  else if cond = "<=" then counterVal ≤ uint64OfInt32 v
  else if cond = ">=" then counterVal ≥ uint64OfInt32 v
  else if cond = "!=" then counterVal ≠ uint64OfInt32 v
  else false

/-- `L2Flag::Check(counterVec)`: the flag is first set to `false`, then every
counter whose name equals the monitor name overwrites it with the comparison
result (the last matching counter wins). -/
def flagCheck (f : L2FlagState) (counters : List L2CounterState) : L2FlagState :=
  counters.foldl
    (fun acc c =>
      if c.name = f.monitorName then
        { acc with flag := compareCond f.condition c.counter f.value }
      else acc)
    { f with flag := false }

/-- `L2DataAcceptance`: monitored flag names and logical operator. -/
structure L2Acceptance where
  monitorVec : List String
  logicalOperator : String
deriving Repr, DecidableEq

/-- The AND loop of `L2DataAcceptance::Check`: return `false` as soon as a
monitored flag with a matching name is false; reaching the end of the loop
falls through to the final `return true`. -/
def andScan (flags : List L2FlagState) : List String → Bool
  | [] => true
  | m :: ms =>
    if flags.any (fun f => f.name = m ∧ f.flag = false) then false
    else andScan flags ms

/-- The OR loop of `L2DataAcceptance::Check`: return `true` as soon as a
monitored flag with a matching name is true; reaching the end of the loop
also falls through to the final `return true` of the function. -/
def orScan (flags : List L2FlagState) : List String → Bool
  | [] => true
  | m :: ms =>
    if flags.any (fun f => f.name = m ∧ f.flag = true) then true
    else orScan flags ms

/-- `L2DataAcceptance::Check(flagVec)`. -/
def acceptanceCheck (a : L2Acceptance) (flags : List L2FlagState) : Bool :=
  if a.logicalOperator = "AND" then andScan flags a.monitorVec
  else if a.logicalOperator = "OR" then orScan flags a.monitorVec
  else false

/-! ## Event data (`EventData.hpp`) -/

/-- `RawData_t`: one hit.  `fineTS` is a C++ double (picoseconds in the raw
tree, nanoseconds relative to the trigger inside an event); embedded as a
rational. -/
structure RawData where
  isWithAC : Bool
  mod : Nat
  ch : Nat
  chargeLong : Nat
  chargeShort : Nat
  fineTS : Rat
deriving Repr, DecidableEq, Inhabited

/-- `EventData`: trigger time plus the hits of one event (`hits.head?` is the
trigger when the event was built by L1). -/
structure Event where
  triggerTime : Rat
  hits : List RawData
deriving Repr, DecidableEq, Inhabited

/-! ## L2 filter (`L2EventBuilder::ProcessData`) -/

/-- The per-worker mutable rule state of `L2EventBuilder::ProcessData`
(`localCounterVec` and `localFlagVec`). -/
structure L2State where
  counters : List L2CounterState
  flags : List L2FlagState
deriving Repr, DecidableEq

/-- One iteration of the event loop of `L2EventBuilder::ProcessData`: an
event with an empty hit list is skipped before anything else happens;
otherwise every counter is reset and fed all hits, every flag is evaluated
against the counters, `fillFlag` is the or-fold of all acceptance checks, and
the event is written (together with the counter and flag snapshots) iff
`fillFlag` is true. -/
def l2Step (accepts : List L2Acceptance) (st : L2State) (e : Event) :
    L2State × Option (L2State × Event) :=
  if e.hits.isEmpty then (st, none)
  else
    let counters := st.counters.map
      (fun c => evalCounter c (e.hits.map (fun h => (h.mod, h.ch))))
    let flags := st.flags.map (fun f => flagCheck f counters)
    let fillFlag := accepts.foldl (fun b a => b || acceptanceCheck a flags) false
    (⟨counters, flags⟩, if fillFlag then some (⟨counters, flags⟩, e) else none)

/-- The event loop of `L2EventBuilder::ProcessData` over a list of input
events; returns the written records (rule-state snapshot plus event). -/
def l2Run (accepts : List L2Acceptance) (st : L2State) :
    List Event → List (L2State × Event)
  | [] => []
  | e :: rest =>
    match l2Step accepts st e with
    | (st2, none) => l2Run accepts st2 rest
    | (st2, some w) => w :: l2Run accepts st2 rest

/-- The condition table built for one counter by
`L2EventBuilder::LoadL2Settings`: `conditionTable[i][j]` is true iff some
declared tag of the counter occurs among the tags of channel `(i, j)`. -/
def buildConditionTable (cfg : Config) (tags : List String) : List (List Bool) :=
  cfg.map (fun row => row.map (fun cs => tags.any (fun t => cs.tags.contains t)))

/-! ## L1 event builder (`L1EventBuilder.cpp`) -/

/-- One entry of the raw `ELIADE_Tree`: the branches read by
`L1EventBuilder::DataReader`.  `fineTS` is the raw picosecond timestamp. -/
structure Entry where
  mod : Nat
  ch : Nat
  chargeLong : Nat
  chargeShort : Nat
  fineTS : Rat
deriving Repr, DecidableEq

/-- The offset slice `fTimeSettingsVec[fRefMod][fRefCh]` consumed by the L1
build (nanoseconds), indexed by module then channel. -/
abbrev Offsets := List (List Rat)

/-- `fTimeSettingsVec[fRefMod][fRefCh][mod][ch]` (0 when out of range). -/
def offAt (off : Offsets) (m c : Nat) : Rat :=
  (off.getD m []).getD c 0

/-- The load loop of `DataReader`: keep entries with
`chargeLong > thresholdADC`, convert picoseconds to nanoseconds and subtract
the channel's time offset. -/
def loadRawData (cfg : Config) (off : Offsets) (entries : List Entry) :
    List RawData :=
  entries.filterMap (fun e =>
    if (chAt cfg e.mod e.ch).thresholdADC < e.chargeLong then
      some ⟨false, e.mod, e.ch, e.chargeLong, e.chargeShort,
            e.fineTS / 1000 - offAt off e.mod e.ch⟩
    else none)

/-- Order of the `std::sort` calls in `DataReader`: by (corrected or
relative) timestamp. -/
def leTS (a b : RawData) : Prop := a.fineTS ≤ b.fineTS

instance : DecidableRel leTS := fun a b =>
  inferInstanceAs (Decidable (a.fineTS ≤ b.fineTS))

instance : IsTotal RawData leTS := ⟨fun a b => le_total a.fineTS b.fineTS⟩

instance : IsTrans RawData leTS := ⟨fun _ _ _ => le_trans⟩

/-- `std::sort(rawDataVec, ... a->fineTS < b->fineTS)`, embedded as a stable
sort by timestamp (ties are left in an arbitrary order by `std::sort`; any
timestamp-sorted permutation is a faithful model). -/
def sortRawData (l : List RawData) : List RawData :=
  l.insertionSort leTS

/-- A hit re-expressed relative to the trigger time, as pushed into
`eventDataVec` (`hit.fineTS -= eventData.triggerTime`). -/
def relHit (trigT : Rat) (h : RawData) : RawData :=
  { h with fineTS := h.fineTS - trigT }

/-- The forward coincidence walk (`jEve = iEve + 1, ...`).  `none` means the
event is abandoned (`fillFlag = false`): a later hit on a trigger channel
with `id ≥ triggerID` strictly inside the coincidence window.  `some hits`
collects the accepted coincident hits (relative times) until the first hit
with `ts > fCoincidenceWindow`. -/
def forwardScan (cfg : Config) (w trigT : Rat) (trigID : Int) :
    List RawData → Option (List RawData)
  | [] => some []
  | h :: rest =>
    if w < h.fineTS - trigT then some []
    else if (chAt cfg h.mod h.ch).isEventTrigger = true ∧
            trigID ≤ (chAt cfg h.mod h.ch).ID ∧ h.fineTS - trigT < w then none
    else
      match forwardScan cfg w trigT trigID rest with
      | none => none
      | some l => some (relHit trigT h :: l)

/-- The backward coincidence walk (`jEve = iEve - 1, ...`), taking the hits
before the trigger in reverse order (nearest first). -/
def backwardScan (cfg : Config) (w trigT : Rat) (trigID : Int) :
    List RawData → Option (List RawData)
  | [] => some []
  | h :: rest =>
    if h.fineTS - trigT < -w then some []
    else if (chAt cfg h.mod h.ch).isEventTrigger = true ∧
            trigID ≤ (chAt cfg h.mod h.ch).ID ∧ -w < h.fineTS - trigT then none
    else
      match backwardScan cfg w trigT trigID rest with
      | none => none
      | some l => some (relHit trigT h :: l)

/-- The `// Check AC` loop: a hit on a channel with `hasAC` is tagged iff the
event contains a hit on the associated AC channel with `|relative t| <
fCoincidenceWindow`.  The C++ loop mutates only `isWithAC`, which the scan
condition never reads, so a `map` over the unmodified list is faithful. -/
def acTag (cfg : Config) (w : Rat) (hits : List RawData) : List RawData :=
  hits.map (fun h =>
    if (chAt cfg h.mod h.ch).hasAC = true ∧
       hits.any (fun ac =>
         ac.mod = (chAt cfg h.mod h.ch).ACMod ∧
         ac.ch = (chAt cfg h.mod h.ch).ACCh ∧ |ac.fineTS| < w) then
      { h with isWithAC := true }
    else h)

/-- Event construction for the hit `h`, with `prev` the hits before `h` in
reverse order and `rest` the hits after `h`: the body of the
`isEventTrigger` branch of `DataReader`.  Returns `none` when `h` is not a
trigger hit or when either walk abandons the event; otherwise the trigger
hit (relative time 0) followed by the sorted coincident hits, AC-tagged. -/
def buildEvent (cfg : Config) (w : Rat) (prev : List RawData) (h : RawData)
    (rest : List RawData) : Option Event :=
  if (chAt cfg h.mod h.ch).isEventTrigger = true then
    match forwardScan cfg w h.fineTS (chAt cfg h.mod h.ch).ID rest with
    | none => none
    | some fwd =>
      match backwardScan cfg w h.fineTS (chAt cfg h.mod h.ch).ID prev with
      | none => none
      | some bwd =>
        some ⟨h.fineTS, acTag cfg w (relHit h.fineTS h :: sortRawData (fwd ++ bwd))⟩
  else none

/-- The outer `for (iEve ...)` loop of `DataReader` over the sorted hits:
`prev` accumulates the already visited hits in reverse order. -/
def scanEvents (cfg : Config) (w : Rat) :
    List RawData → List RawData → List Event
  | _, [] => []
  | prev, h :: rest =>
    match buildEvent cfg w prev h rest with
    | some e => e :: scanEvents cfg w (h :: prev) rest
    | none => scanEvents cfg w (h :: prev) rest

/-- Processing of one input file by `DataReader`: load (threshold filter and
time correction), sort by corrected timestamp, and run the event loop. -/
def processFile (cfg : Config) (off : Offsets) (w : Rat)
    (entries : List Entry) : List Event :=
  scanEvents cfg w [] (sortRawData (loadRawData cfg off entries))

/-- The file loop of `DataReader` for one worker: each file is loaded into a
fresh `rawDataVec`, processed, and cleared; the emitted events of all files
of the worker are appended to the single output tree. -/
def dataReader (cfg : Config) (off : Offsets) (w : Rat)
    (files : List (List Entry)) : List Event :=
  files.foldl (fun out f => out ++ processFile cfg off w f) []

/-! ## File distribution (`L1EventBuilder::BuildEvent`) -/

/-- The file-distribution loop of `BuildEvent`: thread `i` takes
`size / nThreads` files, plus one more when `i < size % nThreads`, consuming
the file list in order (`iFile` advances monotonically). -/
def assignGo (q r : Nat) : Nat → Nat → List α → List (List α)
  | _, 0, _ => []
  | i, n + 1, files =>
    let c := q + (if i < r then 1 else 0)
    files.take c :: assignGo q r (i + 1) n (files.drop c)

/-- `localFileList` as built by `L1EventBuilder::BuildEvent` for `n`
threads. -/
def makeLocalFileList (files : List α) (n : Nat) : List (List α) :=
  assignGo (files.length / n) (files.length % n) 0 n files

/-! ## Time alignment peak extraction (`TimeAlignment::CalculateTimeAlignment`)

A small model of the ROOT histogram operations used by the peak extraction:
a 1-D histogram is its axis start, its bin width and its list of in-range bin
contents; `TH2D::ProjectionX`, `TH1::Rebin`, `TH1::GetMaximumBin` and
`TH1::GetBinCenter` are modelled with their documented semantics. -/

/-- A 1-D histogram: `bins.get i` is the content of ROOT bin `i + 1`. -/
structure Hist1 where
  xmin : Rat
  width : Rat
  bins : List Nat
deriving Repr, DecidableEq

/-- A 2-D time-difference histogram `hTime_mm_cc`: `rows.get i` is the X
(time-difference) slice for Y (channel-id) bin `i + 1`. -/
structure Hist2 where
  xmin : Rat
  width : Rat
  rows : List (List Nat)
deriving Repr, DecidableEq

/-- `TH2D::ProjectionX(..., bin, bin)` for Y bin `id + 1` (the code passes
`bin = id + 1`). -/
def projectionX (h : Hist2) (id : Nat) : Hist1 :=
  ⟨h.xmin, h.width, h.rows.getD id []⟩

/-- `TH1::Rebin(k)` bin grouping: groups of `k` consecutive bins are summed;
a trailing group of fewer than `k` bins does not form a new in-range bin
(ROOT moves it to the overflow bin). -/
def groupBins (k : Nat) (l : List Nat) : List Nat :=
  if _hk : 0 < k ∧ k ≤ l.length then
    (l.take k).sum :: groupBins k (l.drop k)
  else []
termination_by l.length
decreasing_by
  simp only [List.length_drop]
  omega

/-- `TH1::Rebin(k)`: the bin width is multiplied by `k`. -/
def rebin (k : Nat) (h : Hist1) : Hist1 :=
  ⟨h.xmin, h.width * k, groupBins k h.bins⟩

/-- The rebin factor chosen by `CalculateTimeAlignment` from the detector
type: AC × 10, HPGe × 100, anything else unchanged. -/
def rebinFactor (detType : String) : Nat :=
  match getDetectorType detType with
  | DetectorType.AC => 10
  | DetectorType.HPGe => 100
  | _ => 1

/-- `TH1::GetMaximumBin`: scan the in-range bins in order; a bin replaces the
current best only when its content is strictly larger, so the first bin with
maximal content wins.  ROOT's initial maximum is `-DBL_MAX`, so the first bin
always becomes the initial best; an empty histogram yields bin 0. -/
def maxBinGo : Nat → Option (Nat × Nat) → List Nat → Option (Nat × Nat)
  | _, acc, [] => acc
  | i, none, c :: rest => maxBinGo (i + 1) (some (i, c)) rest
  | i, some (b, v), c :: rest =>
    if v < c then maxBinGo (i + 1) (some (i, c)) rest
    else maxBinGo (i + 1) (some (b, v)) rest

/-- `TH1::GetMaximumBin` on the model. -/
def getMaximumBin (h : Hist1) : Nat :=
  ((maxBinGo 1 none h.bins).map Prod.fst).getD 0

/-- `TH1::GetBinCenter(b)` for 1-based bin `b`. -/
def getBinCenter (h : Hist1) (b : Nat) : Rat :=
  h.xmin + ((b : Rat) - 1) * h.width + h.width / 2

/-- `TH1::GetEntries` of a projection: the number of fills it received, i.e.
the sum of its bin contents (`Rebin` does not change the entry count). -/
def entries (h : Hist1) : Nat := h.bins.sum

/-- `localVec[iMod][iCh]` of `CalculateTimeAlignment` for the 2-D histogram
of one trigger pair: project the X slice of the channel's id bin, rebin by
the channel's detector type, and extract the peak: `timeOffset` starts at 0
and becomes the center of the maximum bin only when the histogram has
entries (`TH1::Rebin` does not change `GetEntries`, so the guard tests the
entry count of the projection). -/
def localOffset (cfg : Config) (h2 : Hist2) (m c : Nat) : Rat :=
  if 0 < entries (projectionX h2 (chAt cfg m c).ID.toNat) then
    getBinCenter
      (rebin (rebinFactor (chAt cfg m c).detectorType)
        (projectionX h2 (chAt cfg m c).ID.toNat))
      (getMaximumBin
        (rebin (rebinFactor (chAt cfg m c).detectorType)
          (projectionX h2 (chAt cfg m c).ID.toNat)))
  else 0

/-- One `"TimeOffset"` value of the emitted `timeSettings.json`: the JSON
writer re-zeroes the diagonal (inside the `timeOffset != 0` guard, which does
not change the written value when the offset is already 0). -/
def writtenOffset (cfg : Config) (hist : Nat → Nat → Hist2)
    (iRefMod iRefCh iMod iCh : Nat) : Rat :=
  let t := localOffset cfg (hist iRefMod iRefCh) iMod iCh
  if t ≠ 0 then
    (if iRefMod = iMod ∧ iRefCh = iCh then 0 else t)
  else t

/-- The full 4-level nested `timeSettings.json` array written by
`CalculateTimeAlignment`, when every 2-D histogram is present in the input
file (`hist i j` is the histogram `hTime_i_j`). -/
def timeSettingsJSON (cfg : Config) (hist : Nat → Nat → Hist2) :
    List (List (List (List Rat))) :=
  (List.range cfg.length).map (fun iRefMod =>
    (List.range (cfg.getD iRefMod []).length).map (fun iRefCh =>
      (List.range cfg.length).map (fun iMod =>
        (List.range (cfg.getD iMod []).length).map (fun iCh =>
          writtenOffset cfg hist iRefMod iRefCh iMod iCh))))

/-! ## Specification-side definitions

These follow the wording of the specification (possibly as amended by the
theorems below) rather than the code, so that the theorems can compare the
two. -/

/-- Flag semantics as amended for claim C5: the declared operator applied to
the counter value and the constant under unsigned 64-bit comparison, i.e.
with a negative constant `v` standing for `v + 2 ^ 64`; stated over `Int` so
that the conversion is explicit. -/
def flagUnsignedSpec (cond : String) (counterVal : Nat) (v : Int) : Bool :=
  let m : Int := if v < 0 then v + 2 ^ 64 else v
  if cond = "==" then decide ((counterVal : Int) = m)
  else if cond = "<" then decide ((counterVal : Int) < m)
  else if cond = ">" then decide (m < (counterVal : Int))
  else if cond = "<=" then decide ((counterVal : Int) ≤ m)
  else if cond = ">=" then decide (m ≤ (counterVal : Int))
  else if cond = "!=" then decide ((counterVal : Int) ≠ m)
  else false

/-- Two hits agreeing on everything except possibly the anti-coincidence tag
and the (absolute versus relative) timestamp. -/
def sameCore (x y : RawData) : Prop :=
  x.mod = y.mod ∧ x.ch = y.ch ∧ x.chargeLong = y.chargeLong ∧
    x.chargeShort = y.chargeShort

/-- Descending timestamp order (used for the reversed prefix walked by the
backward scan). -/
def geTS (a b : RawData) : Prop := b.fineTS ≤ a.fineTS

instance : DecidableRel geTS := fun a b =>
  inferInstanceAs (Decidable (b.fineTS ≤ a.fineTS))

/-! ## Concrete inputs used by witnesses and counterexamples -/

/-- One module with two event-trigger channels, ids 3 and 5, threshold 0. -/
def cfgA : Config :=
  [[{ isEventTrigger := true, ID := 3 }, { isEventTrigger := true, ID := 5 }]]

/-- Zero offsets for one module with two channels. -/
def offA : Offsets := [[0, 0]]

/-- Channel (0,0), charge 1, raw time 0 ps. -/
def entA1 : Entry := ⟨0, 0, 1, 1, 0⟩

/-- Channel (0,1), charge 1, raw time 40000 ps = 40 ns. -/
def entA2 : Entry := ⟨0, 1, 1, 1, 40000⟩

/-- The loaded hit of `entA1` (corrected time 0 ns). -/
def rawA1 : RawData := ⟨false, 0, 0, 1, 1, 0⟩

/-- The loaded hit of `entA2` (corrected time 40 ns). -/
def rawA2 : RawData := ⟨false, 0, 1, 1, 1, 40⟩

/-- One module with a trigger channel (id 0) and a non-trigger channel
(id 1), threshold 0. -/
def cfgB : Config := [[{ isEventTrigger := true, ID := 0 }, { ID := 1 }]]

/-- Channel (0,0) (trigger), raw time 0 ps. -/
def entB1 : Entry := ⟨0, 0, 1, 1, 0⟩

/-- Channel (0,1) (non-trigger), raw time 100000 ps = 100 ns: exactly at the
coincidence window `W = 100` ns relative to `entB1`. -/
def entB2 : Entry := ⟨0, 1, 1, 1, 100000⟩

/-- Non-trigger hit at 95 ns, the only entry of the first input file of the
claim C3 counterexample. -/
def entC1 : Entry := ⟨0, 1, 1, 1, 95000⟩

/-- Trigger hit at 100 ns, the only entry of the second input file of the
claim C3 counterexample. -/
def entC2 : Entry := ⟨0, 0, 1, 1, 100000⟩

/-- One module, channels with ids 0 and 1; channel 1 is an anti-coincidence
detector (`"ac"`), so its projection is rebinned by 10. -/
def cfgH : Config := [[{ ID := 0 }, { ID := 1, detectorType := "ac" }]]

/-- A time-difference histogram on `[-100, 100]` with 2 ns bins: id bin 0
has contents `[0, 5, 1]`, id bin 1 has twenty increasing bins. -/
def histH : Nat → Nat → Hist2 := fun _ _ =>
  ⟨-100, 2, [[0, 5, 1],
             [1, 2, 3, 4, 5, 6, 7, 8, 9, 10,
              11, 12, 13, 14, 15, 16, 17, 18, 19, 20]]⟩

/-! ## Theorems: L2 selection rules (claims C1, C5, C7, C9, C10) -/

/-- Helper for claim C5: on an `int32_t` value, the implicit `uint64_t`
conversion is the identity for non-negative values and adds `2 ^ 64` for
negative ones. -/
theorem uint64OfInt32_eq (v : Int) (h1 : -(2 ^ 31) ≤ v) (h2 : v < 2 ^ 31) :
    (uint64OfInt32 v : Int) = if v < 0 then v + 2 ^ 64 else v := by
  unfold uint64OfInt32
  rw [Int.toNat_of_nonneg (Int.emod_nonneg v (by norm_num))]
  have hp : (2 : Int) ^ 64 = 18446744073709551616 := by norm_num
  have hq : (2 : Int) ^ 31 = 2147483648 := by norm_num
  rw [hp] at *
  rw [hq] at h1 h2
  split_ifs <;> omega

/-- Helper for claim C5: the comparison chain of `L2Flag::Check` agrees with
the unsigned comparison semantics stated over `Int`, for constants in the
`int32_t` range. -/
theorem compareCond_eq_spec (cond : String) (n : Nat) (v : Int)
    (h1 : -(2 ^ 31) ≤ v) (h2 : v < 2 ^ 31) :
    compareCond cond n v = flagUnsignedSpec cond n v := by
  have key := uint64OfInt32_eq v h1 h2
  unfold compareCond flagUnsignedSpec
  rw [← key]
  split_ifs <;>
    simp only [decide_eq_decide, Nat.cast_inj, Nat.cast_lt, Nat.cast_le, ne_eq]

/-- Claim C5 (amended): an L2 flag evaluation applies the declared comparison
operator to the monitored counter value and the declared constant under
UNSIGNED 64-bit semantics — the `int32_t` constant is converted to
`uint64_t`, so a negative constant `v` compares as `v + 2 ^ 64`; in
particular a counter value of 0 compared with `<` against a negative
constant yields true, not false. -/
theorem c5_flag_unsigned_semantics (nm mon cond : String) (v : Int) (b : Bool)
    (n : Nat) (tbl : List (List Bool))
    (h1 : -(2 ^ 31) ≤ v) (h2 : v < 2 ^ 31) :
    (flagCheck ⟨nm, mon, cond, v, b⟩ [⟨mon, n, tbl⟩]).flag =
      flagUnsignedSpec cond n v := by
  have hstep : flagCheck ⟨nm, mon, cond, v, b⟩ [⟨mon, n, tbl⟩] =
      ⟨nm, mon, cond, v, compareCond cond n v⟩ := by
    unfold flagCheck
    simp [List.foldl_cons, List.foldl_nil]
  rw [hstep]
  exact compareCond_eq_spec cond n v h1 h2

/-- Witness for claim C5's theorem at `cond = "<"`, counter 0, constant
`-1`. -/
theorem c5_flag_unsigned_semantics_witness :
    -(2 ^ 31) ≤ (-1 : Int) ∧ (-1 : Int) < 2 ^ 31 ∧
      (flagCheck ⟨"f", "C", "<", -1, false⟩ [⟨"C", 0, []⟩]).flag =
        flagUnsignedSpec "<" 0 (-1) :=
  ⟨by decide, by decide,
    c5_flag_unsigned_semantics "f" "C" "<" (-1) false 0 [] (by decide) (by decide)⟩

/-- Claim C5 as stated is false on the code: a counter value of 0 compared
with `<` against the negative constant `-1` yields TRUE (the constant is
converted to `uint64_t`, becoming `2 ^ 64 - 1`), where the claim's signed
semantics would yield false. -/
theorem c5_counterexample :
    (flagCheck ⟨"f", "C", "<", -1, false⟩ [⟨"C", 0, []⟩]).flag = true := by
  decide

/-- Claim C9 (amended): when an L2 flag's monitored counter name matches no
declared counter, evaluating the flag SETS IT TO FALSE (`Check` assigns
`flag = false` before scanning), rather than leaving it unchanged; for a
flag still at its default false value the two readings coincide. -/
theorem c9_flag_missing_monitor (f : L2FlagState)
    (counters : List L2CounterState)
    (h : ∀ c ∈ counters, c.name ≠ f.monitorName) :
    flagCheck f counters = { f with flag := false } := by
  unfold flagCheck
  induction counters with
  | nil => rfl
  | cons c cs ih =>
    simp only [List.foldl_cons]
    rw [if_neg (h c (List.mem_cons_self c cs))]
    exact ih fun c2 hc2 => h c2 (List.mem_cons_of_mem c hc2)

/-- Witness for claim C9's theorem: monitor `"nope"` matches no counter. -/
theorem c9_flag_missing_monitor_witness :
    (∀ c ∈ ([⟨"C", 5, []⟩] : List L2CounterState), c.name ≠ "nope") ∧
      flagCheck ⟨"f", "nope", "==", 0, true⟩ [⟨"C", 5, []⟩] =
        ⟨"f", "nope", "==", 0, false⟩ :=
  ⟨by decide, c9_flag_missing_monitor ⟨"f", "nope", "==", 0, true⟩ _ (by decide)⟩

/-- Claim C9 as stated is false on the code: a flag that was TRUE before the
evaluation and whose monitor matches no counter comes out FALSE, not
unchanged. -/
theorem c9_counterexample :
    (⟨"f", "nope", "==", 0, true⟩ : L2FlagState).flag = true ∧
      (flagCheck ⟨"f", "nope", "==", 0, true⟩ [⟨"C", 5, []⟩]).flag = false := by
  decide

/-- Helper for claim C7: `L2Counter::Check` never changes the condition
table. -/
theorem counterCheck_conditionTable (c : L2CounterState) (m ch : Nat) :
    (counterCheck c m ch).conditionTable = c.conditionTable := by
  unfold counterCheck
  split_ifs <;> rfl

/-- Helper for claim C7: `L2Counter::Check` adds one exactly when the table
entry of the hit's channel is true. -/
theorem counterCheck_counter (c : L2CounterState) (m ch : Nat) :
    (counterCheck c m ch).counter =
      c.counter + (if (c.conditionTable.getD m []).getD ch false then 1 else 0) := by
  unfold counterCheck
  split_ifs <;> simp

/-- Helper for claim C7: folding `Check` over the hits counts the hits whose
channel satisfies the condition table, on top of the initial value. -/
theorem foldl_counterCheck (hits : List (Nat × Nat)) :
    ∀ c : L2CounterState,
      (hits.foldl (fun acc h => counterCheck acc h.1 h.2) c).counter =
        c.counter +
          hits.countP (fun h => (c.conditionTable.getD h.1 []).getD h.2 false) := by
  induction hits with
  | nil => intro c; simp
  | cons h t ih =>
    intro c
    rw [List.foldl_cons, ih (counterCheck c h.1 h.2)]
    simp only [counterCheck_conditionTable, counterCheck_counter,
      List.countP_cons]
    split_ifs <;> omega

/-- Helper for claim C7: looking up the condition table built by
`LoadL2Settings` is the tag test on the channel settings (false outside the
configured range, where the channel has no tags). -/
theorem conditionTable_lookup_row (tags : List String) (row : List ChSetting) :
    ∀ c : Nat,
      ((row.map (fun cs => tags.any (fun t => cs.tags.contains t))).getD c false) =
        tags.any (fun t => (row.getD c default).tags.contains t) := by
  induction row with
  | nil =>
    intro c
    simp [List.getD, show (default : ChSetting).tags = [] from rfl]
  | cons cs rest ih =>
    intro c
    cases c with
    | zero => simp [List.getD]
    | succ c => simpa [List.getD] using ih c

/-- Helper for claim C7: the full condition-table lookup in terms of
`chAt`. -/
theorem conditionTable_lookup (cfg : Config) (tags : List String) :
    ∀ m c : Nat,
      (((buildConditionTable cfg tags).getD m []).getD c false) =
        tags.any (fun t => (chAt cfg m c).tags.contains t) := by
  intro m
  unfold buildConditionTable chAt
  induction cfg generalizing m with
  | nil =>
    intro c
    simp [List.getD, show (default : ChSetting).tags = [] from rfl]
  | cons row rows ih =>
    intro c
    cases m with
    | zero => simpa [List.getD] using conditionTable_lookup_row tags row c
    | succ m => simpa [List.getD] using ih m c

/-- Helper for claim C7: having a common element is list intersection being
non-empty. -/
theorem any_contains_eq_inter_ne_nil (tags chTags : List String) :
    tags.any (fun t => chTags.contains t) =
      decide (chTags.inter tags ≠ []) := by
  rw [Bool.eq_iff_iff]
  simp only [List.any_eq_true, List.elem_iff, decide_eq_true_eq, ne_eq]
  constructor
  · rintro ⟨t, ht, hc⟩ hnil
    have hmem : t ∈ chTags.inter tags := List.mem_inter_of_mem_of_mem hc ht
    simp [hnil] at hmem
  · intro hne
    rcases List.exists_mem_of_ne_nil _ hne with ⟨t, ht⟩
    have ht2 : t ∈ chTags ∧ t ∈ tags := List.mem_inter_iff.mp ht
    exact ⟨t, ht2.2, ht2.1⟩

/-- Claim C7 (confirmed): for every event, each counter evaluated by the L2
filter equals the number of hits of the event whose channel's tag set
intersects the counter's declared tag set (each hit increments a matching
counter exactly once), independently of the counter's value before the event
(the counter is reset to zero first). -/
theorem c7_counter_semantics (cfg : Config) (tags : List String) (nm : String)
    (k : Nat) (e : Event) :
    (evalCounter ⟨nm, k, buildConditionTable cfg tags⟩
        (e.hits.map (fun h => (h.mod, h.ch)))).counter =
      e.hits.countP
        (fun h => decide ((chAt cfg h.mod h.ch).tags.inter tags ≠ [])) := by
  unfold evalCounter
  rw [foldl_counterCheck]
  simp only [List.countP_map]
  rw [Nat.zero_add]
  · apply List.countP_congr
    intro h _
    simp only [Function.comp]
    rw [conditionTable_lookup cfg tags h.mod h.ch,
      any_contains_eq_inter_ne_nil tags (chAt cfg h.mod h.ch).tags]

/-- Claim C10 (confirmed): an L1 event with an empty hit list is skipped by
the L2 filter before any rule is touched: the step leaves the counter and
flag state unchanged and writes nothing, and the whole run is unchanged by
deleting empty events, whatever the declared rule set. -/
theorem c10_empty_event_skipped :
    (∀ (accepts : List L2Acceptance) (st : L2State) (t : Rat),
        l2Step accepts st ⟨t, []⟩ = (st, none)) ∧
    (∀ (accepts : List L2Acceptance) (st : L2State) (evs : List Event),
        l2Run accepts st evs =
          l2Run accepts st (evs.filter (fun e => !e.hits.isEmpty))) := by
  have hstep : ∀ (accepts : List L2Acceptance) (st : L2State) (t : Rat),
      l2Step accepts st ⟨t, []⟩ = (st, none) := fun _ _ _ => rfl
  refine ⟨hstep, ?_⟩
  intro accepts st evs
  induction evs generalizing st with
  | nil => rfl
  | cons e rest ih =>
    by_cases he : e.hits.isEmpty
    · have hee : e = ⟨e.triggerTime, []⟩ := by
        obtain ⟨t, hits⟩ := e
        simp only [List.isEmpty_iff] at he
        simp [he]
      rw [List.filter_cons_of_neg (by simp [he]), l2Run]
      rw [hee, hstep]
      exact ih st
    · rw [List.filter_cons_of_pos (by simp [he])]
      cases hs : l2Step accepts st e with
      | mk st2 opt =>
        cases opt with
        | none =>
          simp only [l2Run, hs]
          exact ih st2
        | some w =>
          simp only [l2Run, hs]
          rw [ih st2]

/-- Claim C1 (code bug, evaluated at the failing input): an acceptance with
operator OR whose only monitored flag exists and is FALSE nevertheless
returns true — the OR loop of `L2DataAcceptance::Check` falls through to the
function's final `return true` — so the event survives and is written.  The
claim (together with the repository's own test `CheckOR_AllFalse` and
`docs/L2Conditions_Analysis.md`, which records this as a fixed critical bug)
requires the acceptance to evaluate false and the event to be rejected. -/
theorem c1_or_fallthrough_eval :
    acceptanceCheck ⟨["Flag1"], "OR"⟩ [⟨"Flag1", "C1", "==", 1, false⟩] = true ∧
      l2Run [⟨["Flag1"], "OR"⟩] ⟨[], [⟨"Flag1", "C1", "==", 1, false⟩]⟩
          [⟨0, [⟨false, 0, 0, 1, 1, 0⟩]⟩] =
        [(⟨[], [⟨"Flag1", "C1", "==", 1, false⟩]⟩,
          ⟨0, [⟨false, 0, 0, 1, 1, 0⟩]⟩)] := by
  constructor
  · decide
  · decide

/-! ## Theorems: L1 file distribution (claim C6) -/

/-- Helper for claim C6: closed form of the assignment loop, starting at
thread index `i`. -/
theorem assignGo_eq (q r : Nat) :
    ∀ (n i : Nat) (fs : List α),
      assignGo q r i n fs = (List.range n).map (fun k =>
        (fs.drop (k * q + min k (r - i))).take
          (q + if i + k < r then 1 else 0)) := by
  intro n
  induction n with
  | zero => intro i fs; rfl
  | succ n ih =>
    intro i fs
    rw [assignGo, List.range_succ_eq_map, List.map_cons, List.map_map]
    congr 1
    · simp
    · rw [ih (i + 1) (fs.drop (q + if i < r then 1 else 0))]
      apply List.map_congr_left
      intro k _
      simp only [Function.comp]
      rw [List.drop_drop]
      congr 2
      · have hik : i + 1 + k = i + k.succ := by omega
        rw [hik]
      · rw [Nat.succ_mul]
        rcases Nat.lt_or_ge i r with hir | hir
        · rw [if_pos hir]
          omega
        · rw [if_neg (Nat.not_lt.mpr hir)]
          omega

/-- Claim C6 (amended): `L1EventBuilder::BuildEvent` distributes the input
files over the `n` workers in CONTIGUOUS BLOCKS, not round-robin: worker `i`
receives the `len / n + (1 if i < len % n else 0)` consecutive files
starting at index `i * (len / n) + min i (len % n)`. -/
theorem c6_block_distribution (files : List α) (n : Nat) :
    makeLocalFileList files n = (List.range n).map (fun i =>
      (files.drop (i * (files.length / n) + min i (files.length % n))).take
        (files.length / n + if i < files.length % n then 1 else 0)) := by
  unfold makeLocalFileList
  rw [assignGo_eq]
  apply List.map_congr_left
  intro k _
  simp

/-- Claim C6 as stated is false on the code: with 5 input files and 2
workers the file of index 1 is handled by worker 0 (worker 0 receives files
0, 1, 2 and worker 1 receives files 3, 4), not by worker `1 mod 2 = 1` as
round-robin distribution would demand. -/
theorem c6_counterexample :
    makeLocalFileList (List.range 5) 2 = [[0, 1, 2], [3, 4]] ∧
      ¬ (∀ k, k < 5 → k ∈ (makeLocalFileList (List.range 5) 2).getD (k % 2) []) := by
  constructor
  · decide
  · decide

/-! ## Theorems: L1 coincidence grouping (claims C2, C3, C4) -/

/-- The sort used by `DataReader` produces a timestamp-sorted list. -/
theorem sorted_sortRawData (l : List RawData) :
    List.Sorted leTS (sortRawData l) :=
  List.sorted_insertionSort leTS l

/-- The sort used by `DataReader` is a permutation: membership is
preserved. -/
theorem mem_sortRawData {a : RawData} {l : List RawData} :
    a ∈ sortRawData l ↔ a ∈ l :=
  (List.perm_insertionSort leTS l).mem_iff

/-- `sameCore` is transitive. -/
theorem sameCore_trans {x y z : RawData} (h1 : sameCore x y)
    (h2 : sameCore y z) : sameCore x z :=
  ⟨h1.1.trans h2.1, h1.2.1.trans h2.2.1, h1.2.2.1.trans h2.2.2.1,
    h1.2.2.2.trans h2.2.2.2⟩

/-- `relHit` changes only the timestamp. -/
theorem sameCore_relHit (trigT : Rat) (y : RawData) :
    sameCore (relHit trigT y) y :=
  ⟨rfl, rfl, rfl, rfl⟩

/-- The timestamp written by `relHit`. -/
theorem relHit_fineTS (trigT : Rat) (y : RawData) :
    (relHit trigT y).fineTS = y.fineTS - trigT := rfl

/-- The forward walk abandons the event (`fillFlag = false`) whenever the
sorted tail contains a trigger-channel hit with `id ≥ triggerID` strictly
inside the window: the walk cannot break before reaching it, because all
earlier hits have smaller or equal timestamps. -/
theorem forwardScan_eq_none (cfg : Config) (w trigT : Rat) (trigID : Int) :
    ∀ (l : List RawData) (x : RawData), List.Sorted leTS l → x ∈ l →
      (chAt cfg x.mod x.ch).isEventTrigger = true →
      trigID ≤ (chAt cfg x.mod x.ch).ID → x.fineTS - trigT < w →
      forwardScan cfg w trigT trigID l = none := by
  intro l
  induction l with
  | nil => intro x _ hx; cases hx
  | cons h rest ih =>
    intro x hsort hx htrig hid hts
    simp only [forwardScan]
    have hnb : ¬ (w < h.fineTS - trigT) := by
      rcases List.mem_cons.mp hx with rfl | hx2
      · linarith
      · have hhx : leTS h x := (List.sorted_cons.mp hsort).1 x hx2
        unfold leTS at hhx
        linarith
    rw [if_neg hnb]
    rcases List.mem_cons.mp hx with rfl | hx2
    · rw [if_pos ⟨htrig, hid, hts⟩]
    · by_cases hc : (chAt cfg h.mod h.ch).isEventTrigger = true ∧
          trigID ≤ (chAt cfg h.mod h.ch).ID ∧ h.fineTS - trigT < w
      · rw [if_pos hc]
      · rw [if_neg hc,
          ih x (List.sorted_cons.mp hsort).2 hx2 htrig hid hts]

/-- The backward walk abandons the event whenever the reversed prefix
(sorted by descending timestamp) contains a trigger-channel hit with
`id ≥ triggerID` strictly inside the window. -/
theorem backwardScan_eq_none (cfg : Config) (w trigT : Rat) (trigID : Int) :
    ∀ (l : List RawData) (x : RawData), List.Sorted geTS l → x ∈ l →
      (chAt cfg x.mod x.ch).isEventTrigger = true →
      trigID ≤ (chAt cfg x.mod x.ch).ID → -w < x.fineTS - trigT →
      backwardScan cfg w trigT trigID l = none := by
  intro l
  induction l with
  | nil => intro x _ hx; cases hx
  | cons h rest ih =>
    intro x hsort hx htrig hid hts
    simp only [backwardScan]
    have hnb : ¬ (h.fineTS - trigT < -w) := by
      rcases List.mem_cons.mp hx with rfl | hx2
      · linarith
      · have hhx : geTS h x := (List.sorted_cons.mp hsort).1 x hx2
        unfold geTS at hhx
        linarith
    rw [if_neg hnb]
    rcases List.mem_cons.mp hx with rfl | hx2
    · rw [if_pos ⟨htrig, hid, hts⟩]
    · by_cases hc : (chAt cfg h.mod h.ch).isEventTrigger = true ∧
          trigID ≤ (chAt cfg h.mod h.ch).ID ∧ -w < h.fineTS - trigT
      · rw [if_pos hc]
      · rw [if_neg hc,
          ih x (List.sorted_cons.mp hsort).2 hx2 htrig hid hts]

/-- Every hit collected by the forward walk is a relative copy of a hit of
the walked list, with relative time at most `w` (the walk checked
`¬ (w < ts)` before keeping it). -/
theorem forwardScan_sound (cfg : Config) (w trigT : Rat) (trigID : Int) :
    ∀ (l out : List RawData), forwardScan cfg w trigT trigID l = some out →
      ∀ x ∈ out, ∃ y ∈ l, x = relHit trigT y ∧ y.fineTS - trigT ≤ w := by
  intro l
  induction l with
  | nil =>
    intro out hs x hx
    simp only [forwardScan] at hs
    cases hs
    cases hx
  | cons h rest ih =>
    intro out hs x hx
    by_cases h1 : w < h.fineTS - trigT
    · rw [forwardScan, if_pos h1] at hs
      cases hs; cases hx
    · by_cases h2 : (chAt cfg h.mod h.ch).isEventTrigger = true ∧
          trigID ≤ (chAt cfg h.mod h.ch).ID ∧ h.fineTS - trigT < w
      · rw [forwardScan, if_neg h1, if_pos h2] at hs
        cases hs
      · rw [forwardScan, if_neg h1, if_neg h2] at hs
        cases hrec : forwardScan cfg w trigT trigID rest with
        | none => rw [hrec] at hs; cases hs
        | some out2 =>
          rw [hrec] at hs
          cases hs
          rcases List.mem_cons.mp hx with rfl | hx2
          · exact ⟨h, List.mem_cons_self h rest, rfl, le_of_not_lt h1⟩
          · rcases ih out2 hrec x hx2 with ⟨y, hy, hxy, hyw⟩
            exact ⟨y, List.mem_cons_of_mem h hy, hxy, hyw⟩

/-- Every hit collected by the backward walk is a relative copy of a hit of
the walked list, with relative time at least `-w`. -/
theorem backwardScan_sound (cfg : Config) (w trigT : Rat) (trigID : Int) :
    ∀ (l out : List RawData), backwardScan cfg w trigT trigID l = some out →
      ∀ x ∈ out, ∃ y ∈ l, x = relHit trigT y ∧ -w ≤ y.fineTS - trigT := by
  intro l
  induction l with
  | nil =>
    intro out hs x hx
    simp only [backwardScan] at hs
    cases hs
    cases hx
  | cons h rest ih =>
    intro out hs x hx
    by_cases h1 : h.fineTS - trigT < -w
    · rw [backwardScan, if_pos h1] at hs
      cases hs; cases hx
    · by_cases h2 : (chAt cfg h.mod h.ch).isEventTrigger = true ∧
          trigID ≤ (chAt cfg h.mod h.ch).ID ∧ -w < h.fineTS - trigT
      · rw [backwardScan, if_neg h1, if_pos h2] at hs
        cases hs
      · rw [backwardScan, if_neg h1, if_neg h2] at hs
        cases hrec : backwardScan cfg w trigT trigID rest with
        | none => rw [hrec] at hs; cases hs
        | some out2 =>
          rw [hrec] at hs
          cases hs
          rcases List.mem_cons.mp hx with rfl | hx2
          · exact ⟨h, List.mem_cons_self h rest, rfl, le_of_not_lt h1⟩
          · rcases ih out2 hrec x hx2 with ⟨y, hy, hxy, hyw⟩
            exact ⟨y, List.mem_cons_of_mem h hy, hxy, hyw⟩

/-- AC tagging changes only the `isWithAC` flags of the hits. -/
theorem mem_acTag (cfg : Config) (w : Rat) (hits : List RawData)
    (x : RawData) (hx : x ∈ acTag cfg w hits) :
    ∃ y ∈ hits, sameCore x y ∧ x.fineTS = y.fineTS := by
  rcases List.mem_map.mp hx with ⟨y, hy, hxy⟩
  refine ⟨y, hy, ?_⟩
  subst hxy
  split_ifs
  · exact ⟨⟨rfl, rfl, rfl, rfl⟩, rfl⟩
  · exact ⟨⟨rfl, rfl, rfl, rfl⟩, rfl⟩

/-- When `buildEvent` is not a trigger hit or either walk abandons, nothing
is emitted; this lemma characterizes what an emitted event contains: the
trigger hit at relative time 0, hits of the tail with relative time `≤ w`,
and hits of the prefix with relative time `≥ -w`, all equal to source hits
up to the AC flag. -/
theorem buildEvent_some (cfg : Config) (w : Rat) (prev : List RawData)
    (h : RawData) (rest : List RawData) (e : Event)
    (hb : buildEvent cfg w prev h rest = some e) :
    e.triggerTime = h.fineTS ∧
    ∀ x ∈ e.hits,
      (sameCore x h ∧ x.fineTS = 0) ∨
      (∃ y ∈ rest, sameCore x y ∧ x.fineTS = y.fineTS - h.fineTS ∧
        x.fineTS ≤ w) ∨
      (∃ y ∈ prev, sameCore x y ∧ x.fineTS = y.fineTS - h.fineTS ∧
        -w ≤ x.fineTS) := by
  unfold buildEvent at hb
  by_cases htr : (chAt cfg h.mod h.ch).isEventTrigger = true
  case neg => rw [if_neg htr] at hb; cases hb
  rw [if_pos htr] at hb
  cases hf : forwardScan cfg w h.fineTS (chAt cfg h.mod h.ch).ID rest with
  | none => rw [hf] at hb; cases hb
  | some fwd =>
    rw [hf] at hb
    cases hg : backwardScan cfg w h.fineTS (chAt cfg h.mod h.ch).ID prev with
    | none => rw [hg] at hb; cases hb
    | some bwd =>
      rw [hg] at hb
      cases hb
      refine ⟨rfl, ?_⟩
      intro x hx
      rcases mem_acTag cfg w _ x hx with ⟨y0, hy0, hcore, hts⟩
      rcases List.mem_cons.mp hy0 with rfl | hy1
      · left
        refine ⟨sameCore_trans hcore (sameCore_relHit _ _), ?_⟩
        rw [hts, relHit_fineTS, sub_self]
      · have hy2 : y0 ∈ fwd ++ bwd := mem_sortRawData.mp hy1
        rcases List.mem_append.mp hy2 with hyf | hyb
        · rcases forwardScan_sound cfg w h.fineTS _ rest fwd hf y0 hyf with
            ⟨y, hy, rfl, hyw⟩
          right; left
          refine ⟨y, hy, sameCore_trans hcore (sameCore_relHit _ _), ?_, ?_⟩
          · rw [hts, relHit_fineTS]
          · rw [hts, relHit_fineTS]; linarith
        · rcases backwardScan_sound cfg w h.fineTS _ prev bwd hg y0 hyb with
            ⟨y, hy, rfl, hyw⟩
          right; right
          refine ⟨y, hy, sameCore_trans hcore (sameCore_relHit _ _), ?_, ?_⟩
          · rw [hts, relHit_fineTS]
          · rw [hts, relHit_fineTS]; linarith

/-- If the trigger hit is not a trigger channel or the forward walk abandons
the event, `buildEvent` emits nothing. -/
theorem buildEvent_eq_none_of_forward (cfg : Config) (w : Rat)
    (prev : List RawData) (h : RawData) (rest : List RawData)
    (hf : forwardScan cfg w h.fineTS (chAt cfg h.mod h.ch).ID rest = none) :
    buildEvent cfg w prev h rest = none := by
  unfold buildEvent
  by_cases htr : (chAt cfg h.mod h.ch).isEventTrigger = true
  · rw [if_pos htr, hf]
  · rw [if_neg htr]

/-- If the backward walk abandons the event, `buildEvent` emits nothing. -/
theorem buildEvent_eq_none_of_backward (cfg : Config) (w : Rat)
    (prev : List RawData) (h : RawData) (rest : List RawData)
    (hg : backwardScan cfg w h.fineTS (chAt cfg h.mod h.ch).ID prev = none) :
    buildEvent cfg w prev h rest = none := by
  unfold buildEvent
  by_cases htr : (chAt cfg h.mod h.ch).isEventTrigger = true
  · rw [if_pos htr]
    cases hf : forwardScan cfg w h.fineTS (chAt cfg h.mod h.ch).ID rest with
    | none => rfl
    | some fwd => rw [hg]
  · rw [if_neg htr]

/-- Every event of the scan loop comes from a decomposition of the walked
list: the trigger hit `mid`, its prefix (reversed into the accumulator) and
its tail. -/
theorem mem_scanEvents (cfg : Config) (w : Rat) :
    ∀ (rest prev : List RawData) (e : Event), e ∈ scanEvents cfg w prev rest →
      ∃ pre mid post, rest = pre ++ mid :: post ∧
        buildEvent cfg w (pre.reverse ++ prev) mid post = some e := by
  intro rest
  induction rest with
  | nil =>
    intro prev e he
    simp only [scanEvents] at he
    cases he
  | cons h t ih =>
    intro prev e he
    rw [scanEvents] at he
    cases hb : buildEvent cfg w prev h t with
    | some e2 =>
      rw [hb] at he
      rcases List.mem_cons.mp he with rfl | he2
      · exact ⟨[], h, t, rfl, by simpa using hb⟩
      · rcases ih (h :: prev) e he2 with ⟨pre, mid, post, hrt, hbe⟩
        refine ⟨h :: pre, mid, post, by rw [hrt, List.cons_append], ?_⟩
        rw [List.reverse_cons, List.append_assoc]
        exact hbe
    | none =>
      rw [hb] at he
      rcases ih (h :: prev) e he with ⟨pre, mid, post, hrt, hbe⟩
      refine ⟨h :: pre, mid, post, by rw [hrt, List.cons_append], ?_⟩
      rw [List.reverse_cons, List.append_assoc]
      exact hbe

/-- Claim C2 (amended): among triggers of the same sorted input whose
relative distance is STRICTLY less than `W`, only the trigger with the
LARGEST channel id can produce an emitted event (not the smallest, as
claimed): whichever of the two events is emitted, its trigger id strictly
exceeds the other trigger's id, so at most one of the two is emitted;
triggers exactly `W` apart do not suppress each other. -/
theorem c2_trigger_priority (cfg : Config) (w : Rat)
    (A M B : List RawData) (h1 h2 : RawData)
    (hsort : List.Sorted leTS (A ++ h1 :: (M ++ h2 :: B)))
    (ht1 : (chAt cfg h1.mod h1.ch).isEventTrigger = true)
    (ht2 : (chAt cfg h2.mod h2.ch).isEventTrigger = true)
    (hw : h2.fineTS - h1.fineTS < w) :
    (buildEvent cfg w A.reverse h1 (M ++ h2 :: B) ≠ none →
      (chAt cfg h2.mod h2.ch).ID < (chAt cfg h1.mod h1.ch).ID) ∧
    (buildEvent cfg w (A ++ h1 :: M).reverse h2 B ≠ none →
      (chAt cfg h1.mod h1.ch).ID < (chAt cfg h2.mod h2.ch).ID) := by
  constructor
  · intro hne
    by_contra hlt
    have hid : (chAt cfg h1.mod h1.ch).ID ≤ (chAt cfg h2.mod h2.ch).ID :=
      le_of_not_lt hlt
    have hsorted2 : List.Sorted leTS (M ++ h2 :: B) := by
      have hs1 : List.Sorted leTS (h1 :: (M ++ h2 :: B)) :=
        List.Pairwise.sublist (List.sublist_append_right A _) hsort
      exact (List.sorted_cons.mp hs1).2
    have hmem : h2 ∈ M ++ h2 :: B :=
      List.mem_append_right M (List.mem_cons_self h2 B)
    exact hne (buildEvent_eq_none_of_forward cfg w A.reverse h1 _
      (forwardScan_eq_none cfg w h1.fineTS _ _ h2 hsorted2 hmem ht2 hid hw))
  · intro hne
    by_contra hlt
    have hid : (chAt cfg h2.mod h2.ch).ID ≤ (chAt cfg h1.mod h1.ch).ID :=
      le_of_not_lt hlt
    have hsort2 : List.Sorted leTS ((A ++ h1 :: M) ++ (h2 :: B)) := by
      simpa [List.append_assoc] using hsort
    have hpref : List.Sorted leTS (A ++ h1 :: M) :=
      List.Pairwise.sublist (List.sublist_append_left _ _) hsort2
    have hrev : List.Sorted geTS (A ++ h1 :: M).reverse :=
      List.pairwise_reverse.mpr hpref
    have hmem : h1 ∈ (A ++ h1 :: M).reverse := by
      rw [List.mem_reverse]
      exact List.mem_append_right A (List.mem_cons_self h1 M)
    have hts : -w < h1.fineTS - h2.fineTS := by linarith
    exact hne (buildEvent_eq_none_of_backward cfg w _ h2 B
      (backwardScan_eq_none cfg w h2.fineTS _ _ h1 hrev hmem ht1 hid hts))

/-- Witness for claim C2's theorem: triggers with ids 3 and 5 at 0 and 40 ns
with `W = 100` ns.  The id-5 event is the one emitted (its `buildEvent` is
`some`), and the theorem forces `3 < 5`. -/
theorem c2_trigger_priority_witness :
    List.Sorted leTS ([] ++ rawA1 :: ([] ++ rawA2 :: [])) ∧
    (chAt cfgA rawA1.mod rawA1.ch).isEventTrigger = true ∧
    (chAt cfgA rawA2.mod rawA2.ch).isEventTrigger = true ∧
    rawA2.fineTS - rawA1.fineTS < 100 ∧
    ((buildEvent cfgA 100 [].reverse rawA1 ([] ++ rawA2 :: []) ≠ none →
        (chAt cfgA rawA2.mod rawA2.ch).ID < (chAt cfgA rawA1.mod rawA1.ch).ID) ∧
      (buildEvent cfgA 100 ([] ++ rawA1 :: []).reverse rawA2 [] ≠ none →
        (chAt cfgA rawA1.mod rawA1.ch).ID < (chAt cfgA rawA2.mod rawA2.ch).ID)) :=
  ⟨by decide, by decide, by decide, by decide,
    c2_trigger_priority cfgA 100 [] [] [] rawA1 rawA2 (by decide) (by decide)
      (by decide) (by decide)⟩

/-- Claim C2 as stated is false on the code: with triggers of ids 3 (at
0 ns) and 5 (at 40 ns) and `W = 100` ns, the only emitted event is the one
triggered at 40 ns by the channel with the LARGER id 5 (the event of the
smallest id 3 is suppressed), contradicting "only the trigger with the
smallest channel id produces an emitted event". -/
theorem c2_counterexample :
    (processFile cfgA offA 100 [entA1, entA2]).map Event.triggerTime = [40] ∧
    (chAt cfgA 0 0).ID = 3 ∧ (chAt cfgA 0 1).ID = 5 ∧
    ¬ ∃ e ∈ processFile cfgA offA 100 [entA1, entA2], e.triggerTime = 0 := by
  refine ⟨by decide, by decide, by decide, by decide⟩

/-- Claim C4 (amended): the coincidence window is CLOSED on both sides, not
open: every hit of every emitted event has relative time in `[-W, +W]`, and
hits at exactly `±W` are included (the walks stop only strictly beyond the
window, `ts > W` and `ts < -W`). -/
theorem c4_closed_window (cfg : Config) (off : Offsets) (w : Rat)
    (entries : List Entry) (hw : 0 ≤ w) :
    ∀ e ∈ processFile cfg off w entries, ∀ x ∈ e.hits,
      -w ≤ x.fineTS ∧ x.fineTS ≤ w := by
  intro e he x hx
  unfold processFile at he
  rcases mem_scanEvents cfg w _ [] e he with ⟨pre, mid, post, hdec, hbe⟩
  have hsorted : List.Sorted leTS (sortRawData (loadRawData cfg off entries)) :=
    sorted_sortRawData _
  rw [hdec] at hsorted
  have hsplit := List.pairwise_append.mp hsorted
  have hpre : ∀ y ∈ pre, y.fineTS ≤ mid.fineTS :=
    fun y hy => hsplit.2.2 y hy mid (List.mem_cons_self _ _)
  have hpost : ∀ y ∈ post, mid.fineTS ≤ y.fineTS :=
    fun y hy => (List.sorted_cons.mp hsplit.2.1).1 y hy
  rcases buildEvent_some cfg w _ mid post e hbe with ⟨htr, hhits⟩
  rcases hhits x hx with ⟨_, h0⟩ | ⟨y, hy, _, hts, hub⟩ | ⟨y, hy, _, hts, hlb⟩
  · rw [h0]
    constructor <;> linarith
  · have hmy := hpost y hy
    refine ⟨?_, hub⟩
    rw [hts]
    linarith
  · have hy2 : y ∈ pre := by
      rw [List.append_nil] at hy
      exact List.mem_reverse.mp hy
    have hmy := hpre y hy2
    refine ⟨hlb, ?_⟩
    rw [hts]
    linarith

/-- Witness for claim C4's theorem: `W = 100` ns, trigger at 0 and a
non-trigger hit at exactly 100 ns; the emitted event keeps the hit at
relative time exactly `+W`, within the closed window. -/
theorem c4_closed_window_witness :
    (0 : Rat) ≤ 100 ∧
      (⟨0, [⟨false, 0, 0, 1, 1, 0⟩, ⟨false, 0, 1, 1, 1, 100⟩]⟩ : Event) ∈
        processFile cfgB offA 100 [entB1, entB2] ∧
      (⟨false, 0, 1, 1, 1, 100⟩ : RawData) ∈
        (⟨0, [⟨false, 0, 0, 1, 1, 0⟩, ⟨false, 0, 1, 1, 1, 100⟩]⟩ : Event).hits ∧
      (-100 ≤ (⟨false, 0, 1, 1, 1, 100⟩ : RawData).fineTS ∧
        (⟨false, 0, 1, 1, 1, 100⟩ : RawData).fineTS ≤ 100) :=
  ⟨by decide, by decide, by decide,
    c4_closed_window cfgB offA 100 [entB1, entB2] (by decide)
      ⟨0, [⟨false, 0, 0, 1, 1, 0⟩, ⟨false, 0, 1, 1, 1, 100⟩]⟩ (by decide)
      ⟨false, 0, 1, 1, 1, 100⟩ (by decide)⟩

/-- Claim C4 as stated is false on the code: with `W = 100` ns, a
non-trigger hit whose corrected time differs from the trigger time by
exactly `+W` is INCLUDED in the emitted event (the forward walk breaks only
on `ts > W` and appends the hit at `ts = W`), not excluded. -/
theorem c4_counterexample :
    processFile cfgB offA 100 [entB1, entB2] =
      [⟨0, [⟨false, 0, 0, 1, 1, 0⟩, ⟨false, 0, 1, 1, 1, 100⟩]⟩] ∧
      ∃ e ∈ processFile cfgB offA 100 [entB1, entB2],
        ∃ x ∈ e.hits, x.fineTS = 100 := by
  refine ⟨by decide, by decide⟩

/-- Helper for claim C3: membership in the append-fold of `DataReader`'s file
loop. -/
theorem mem_foldl_append {β γ : Type} (g : γ → List β) :
    ∀ (files : List γ) (init : List β) (x : β),
      (x ∈ files.foldl (fun out f => out ++ g f) init ↔
        x ∈ init ∨ ∃ f ∈ files, x ∈ g f) := by
  intro files
  induction files with
  | nil => simp
  | cons f fs ih =>
    intro init x
    rw [List.foldl_cons, ih]
    constructor
    · rintro (hmem | ⟨f2, hf2, hx⟩)
      · rcases List.mem_append.mp hmem with hx | hx
        · exact Or.inl hx
        · exact Or.inr ⟨f, List.mem_cons_self f fs, hx⟩
      · exact Or.inr ⟨f2, List.mem_cons_of_mem f hf2, hx⟩
    · rintro (hx | ⟨f2, hf2, hx⟩)
      · exact Or.inl (List.mem_append_left _ hx)
      · rcases List.mem_cons.mp hf2 with rfl | hf3
        · exact Or.inl (List.mem_append_right _ hx)
        · exact Or.inr ⟨f2, hf3, hx⟩

/-- Helper for claim C3: what the load loop of `DataReader` produces —
threshold-passing entries, with the time correction applied. -/
theorem mem_loadRawData (cfg : Config) (off : Offsets) (entries : List Entry)
    (x : RawData) :
    x ∈ loadRawData cfg off entries ↔ ∃ y ∈ entries,
      (chAt cfg y.mod y.ch).thresholdADC < y.chargeLong ∧
      x = ⟨false, y.mod, y.ch, y.chargeLong, y.chargeShort,
           y.fineTS / 1000 - offAt off y.mod y.ch⟩ := by
  unfold loadRawData
  rw [List.mem_filterMap]
  constructor
  · rintro ⟨y, hy, hxy⟩
    by_cases hth : (chAt cfg y.mod y.ch).thresholdADC < y.chargeLong
    · rw [if_pos hth] at hxy
      cases hxy
      exact ⟨y, hy, hth, rfl⟩
    · rw [if_neg hth] at hxy
      cases hxy
  · rintro ⟨y, hy, hth, rfl⟩
    exact ⟨y, hy, by rw [if_pos hth]⟩

/-- Claim C3 (amended): the L1 builder carries NOTHING across file
boundaries — there is no overlap buffer and no acquisition-reset detection
in `DataReader`; every file is processed in isolation, so every emitted
event comes from exactly one input file and each of its hits is a
threshold-passing, time-corrected entry of THAT file, expressed relative to
the event's trigger time. -/
theorem c3_no_cross_file (cfg : Config) (off : Offsets) (w : Rat)
    (files : List (List Entry)) :
    ∀ e ∈ dataReader cfg off w files, ∃ f ∈ files,
      e ∈ processFile cfg off w f ∧
      ∀ x ∈ e.hits, ∃ y ∈ f,
        (chAt cfg y.mod y.ch).thresholdADC < y.chargeLong ∧
        x.mod = y.mod ∧ x.ch = y.ch ∧ x.chargeLong = y.chargeLong ∧
        x.chargeShort = y.chargeShort ∧
        x.fineTS = (y.fineTS / 1000 - offAt off y.mod y.ch) - e.triggerTime := by
  intro e he
  unfold dataReader at he
  rcases (mem_foldl_append _ files [] e).mp he with hinit | ⟨f, hf, hef⟩
  · cases hinit
  refine ⟨f, hf, hef, ?_⟩
  intro x hx
  unfold processFile at hef
  rcases mem_scanEvents cfg w _ [] e hef with ⟨pre, mid, post, hdec, hbe⟩
  rcases buildEvent_some cfg w _ mid post e hbe with ⟨htrT, hhits⟩
  have hmemLoad : ∀ y2 : RawData,
      (y2 = mid ∨ y2 ∈ post ∨ y2 ∈ pre.reverse ++ ([] : List RawData)) →
      y2 ∈ loadRawData cfg off f := by
    intro y2 hy2
    have hmem2 : y2 ∈ sortRawData (loadRawData cfg off f) := by
      rw [hdec]
      rcases hy2 with rfl | hy3 | hy4
      · exact List.mem_append_right _ (List.mem_cons_self _ _)
      · exact List.mem_append_right _ (List.mem_cons_of_mem _ hy3)
      · rw [List.append_nil] at hy4
        exact List.mem_append_left _ (List.mem_reverse.mp hy4)
    exact mem_sortRawData.mp hmem2
  have main : ∃ y2 : RawData, y2 ∈ loadRawData cfg off f ∧
      sameCore x y2 ∧ x.fineTS = y2.fineTS - e.triggerTime := by
    rcases hhits x hx with ⟨hc, h0⟩ | ⟨y2, hy2, hc, hts, _⟩ | ⟨y2, hy2, hc, hts, _⟩
    · refine ⟨mid, hmemLoad mid (Or.inl rfl), hc, ?_⟩
      rw [h0, htrT, sub_self]
    · refine ⟨y2, hmemLoad y2 (Or.inr (Or.inl hy2)), hc, ?_⟩
      rw [hts, htrT]
    · refine ⟨y2, hmemLoad y2 (Or.inr (Or.inr hy2)), hc, ?_⟩
      rw [hts, htrT]
  rcases main with ⟨y2, hy2load, hcore, hts⟩
  rcases (mem_loadRawData cfg off f y2).mp hy2load with ⟨y, hy, hth, rfl⟩
  exact ⟨y, hy, hth, hcore.1, hcore.2.1, hcore.2.2.1, hcore.2.2.2, by rw [hts]⟩

/-- Witness for claim C3's theorem: two one-hit files; the event emitted for
the trigger of the second file contains only that file's hit. -/
theorem c3_no_cross_file_witness :
    (⟨100, [⟨false, 0, 0, 1, 1, 0⟩]⟩ : Event) ∈
        dataReader cfgB offA 100 [[entC1], [entC2]] ∧
      ∃ f ∈ [[entC1], [entC2]],
        (⟨100, [⟨false, 0, 0, 1, 1, 0⟩]⟩ : Event) ∈ processFile cfgB offA 100 f ∧
        ∀ x ∈ (⟨100, [⟨false, 0, 0, 1, 1, 0⟩]⟩ : Event).hits, ∃ y ∈ f,
          (chAt cfgB y.mod y.ch).thresholdADC < y.chargeLong ∧
          x.mod = y.mod ∧ x.ch = y.ch ∧ x.chargeLong = y.chargeLong ∧
          x.chargeShort = y.chargeShort ∧
          x.fineTS = (y.fineTS / 1000 - offAt offA y.mod y.ch) -
            (⟨100, [⟨false, 0, 0, 1, 1, 0⟩]⟩ : Event).triggerTime :=
  ⟨by decide,
    c3_no_cross_file cfgB offA 100 [[entC1], [entC2]] _ (by decide)⟩

/-- Claim C3 as stated is false on the code: file 1 ends with a non-trigger
hit at 95 ns and file 2 starts with a trigger at 100 ns (5 ns apart, well
inside `W = 100` ns, and with no timestamp decrease, so no "acquisition
reset"); the claim demands the emitted event to contain the 95 ns hit of
the previous file, but the code emits the trigger alone — `DataReader` has
no overlap buffer at all. -/
theorem c3_counterexample :
    dataReader cfgB offA 100 [[entC1], [entC2]] =
      [⟨100, [⟨false, 0, 0, 1, 1, 0⟩]⟩] := by
  decide

/-! ## Theorems: TimeAligner peak extraction (claim C8) -/

/-- Helper for claim C8: lookup into a mapped range. -/
theorem range_map_getD {β : Type} (n : Nat) (f : Nat → β) (d : β) (i : Nat) :
    ((List.range n).map f).getD i d = if i < n then f i else d := by
  rcases Nat.lt_or_ge i n with h | h
  · rw [if_pos h, List.getD_eq_getElem?_getD, List.getElem?_map,
      List.getElem?_range h]
    rfl
  · rw [if_neg (Nat.not_lt.mpr h), List.getD_eq_getElem?_getD,
      List.getElem?_eq_none (by simpa using h)]
    rfl

/-- Claim C8 (confirmed): every in-range entry of the written
`timeSettings.json` is: 0 on the diagonal pairing a channel with itself;
0 when the 1-D projection for the other channel's id bin has zero entries;
and otherwise the center of the maximum-content bin of that projection after
rebinning by detector type (AntiCoincidence by 10, HighPurityGermanium by
100, others unchanged). -/
theorem c8_offset_extraction (cfg : Config) (hist : Nat → Nat → Hist2)
    (iRefMod iRefCh iMod iCh : Nat)
    (h1 : iRefMod < cfg.length) (h2 : iRefCh < (cfg.getD iRefMod []).length)
    (h3 : iMod < cfg.length) (h4 : iCh < (cfg.getD iMod []).length) :
    ((((timeSettingsJSON cfg hist).getD iRefMod []).getD iRefCh []).getD iMod
        []).getD iCh 0 =
      if iRefMod = iMod ∧ iRefCh = iCh then 0
      else if entries (projectionX (hist iRefMod iRefCh)
          (chAt cfg iMod iCh).ID.toNat) = 0
        then 0
      else getBinCenter
          (rebin (rebinFactor (chAt cfg iMod iCh).detectorType)
            (projectionX (hist iRefMod iRefCh) (chAt cfg iMod iCh).ID.toNat))
          (getMaximumBin
            (rebin (rebinFactor (chAt cfg iMod iCh).detectorType)
              (projectionX (hist iRefMod iRefCh) (chAt cfg iMod iCh).ID.toNat))) := by
  unfold timeSettingsJSON
  rw [range_map_getD, if_pos h1, range_map_getD, if_pos h2,
    range_map_getD, if_pos h3, range_map_getD, if_pos h4]
  unfold writtenOffset localOffset
  set hp := rebin (rebinFactor (chAt cfg iMod iCh).detectorType)
    (projectionX (hist iRefMod iRefCh) (chAt cfg iMod iCh).ID.toNat) with hhp
  set ep := entries (projectionX (hist iRefMod iRefCh)
    (chAt cfg iMod iCh).ID.toNat) with hep
  by_cases hdiag : iRefMod = iMod ∧ iRefCh = iCh
  · rw [if_pos hdiag]
    by_cases hE : 0 < ep
    · rw [if_pos hE]
      by_cases hC : getBinCenter hp (getMaximumBin hp) ≠ 0
      · rw [if_pos hC, if_pos hdiag]
      · rw [if_neg hC]
        exact not_not.mp hC
    · rw [if_neg hE]
      simp
  · rw [if_neg hdiag]
    by_cases hE : 0 < ep
    · rw [if_pos hE, if_neg (by omega : ¬ ep = 0)]
      by_cases hC : getBinCenter hp (getMaximumBin hp) ≠ 0
      · rw [if_pos hC, if_neg hdiag]
      · rw [if_neg hC]
    · rw [if_neg hE, if_pos (by omega : ep = 0)]
      simp

/-- Witness for claim C8's theorem at the concrete configuration `cfgH` and
histogram set `histH`: the off-diagonal entry for channel (0,1) (an AC
detector, rebinned by 10) is the center of the maximum bin of its rebinned
projection. -/
theorem c8_offset_extraction_witness :
    0 < cfgH.length ∧ 0 < (cfgH.getD 0 []).length ∧ 1 < (cfgH.getD 0 []).length ∧
      ((((timeSettingsJSON cfgH histH).getD 0 []).getD 0 []).getD 0 []).getD 1 0 =
        (if (0 : Nat) = 0 ∧ (0 : Nat) = 1 then 0
          else if entries (projectionX (histH 0 0) (chAt cfgH 0 1).ID.toNat) = 0
            then 0
          else getBinCenter
              (rebin (rebinFactor (chAt cfgH 0 1).detectorType)
                (projectionX (histH 0 0) (chAt cfgH 0 1).ID.toNat))
              (getMaximumBin
                (rebin (rebinFactor (chAt cfgH 0 1).detectorType)
                  (projectionX (histH 0 0) (chAt cfgH 0 1).ID.toNat)))) :=
  ⟨by decide, by decide, by decide,
    c8_offset_extraction cfgH histH 0 0 0 1 (by decide) (by decide) (by decide)
      (by decide)⟩

end Delila
